import Mathlib

/-!
Verification of the intraday breakout backtest engine.

The definitions below are a shallow embedding of the JavaScript sources:
* `checkExitCondition`, `processTradingDay`, `calculatePerformanceMetrics`
  and the day loop of `runStrategy` come from
  `src/controllers/strategyController.js`;
* `seedDailySummary` comes from the daily-summary seed script.

Prices and capital are modelled as exact rationals; `toFixed(2)` followed by
`parseFloat` is modelled by `round2` (round half towards positive infinity at
two decimals, the rounding `Number.prototype.toFixed` specifies); timestamps
are naturals; `Math.floor` on a quotient is `Int.floor`.
-/

/-- One minute bar (fields of the `Candle` model used by the engine). -/
structure Candle where
  timestamp : ℕ
  open_ : ℚ
  high : ℚ
  low : ℚ
  close : ℚ
  volume : ℕ
  deriving Repr, DecidableEq

/-- The previous day's levels handed to the day simulator
(`getPreviousDayLevels` result). -/
structure Levels where
  dailyHigh : ℚ
  dailyLow : ℚ
  deriving Repr, DecidableEq

inductive TradeType where
  | BUY
  | SELL
  deriving Repr, DecidableEq

inductive ExitReason where
  | TARGET
  | STOP_LOSS
  | END_OF_DAY
  deriving Repr, DecidableEq

/-- A ledger entry, as pushed onto `trades` in `processTradingDay`. -/
structure Trade where
  date : ℕ
  type : TradeType
  entryPrice : ℚ
  entryTime : ℕ
  exitPrice : ℚ
  exitTime : ℕ
  exitReason : ExitReason
  quantity : ℤ
  pnl : ℚ
  pnlPercent : ℚ
  deriving Repr, DecidableEq

/-- The in-flight position (`activeTrade` object in `processTradingDay`). -/
structure ActiveTrade where
  type : TradeType
  entryPrice : ℚ
  entryTime : ℕ
  target : ℚ
  stopLoss : ℚ
  isBuy : Bool
  quantity : ℤ
  deriving Repr, DecidableEq

/-- `parseFloat(x.toFixed(2))`: round to two decimal places,
ties towards positive infinity. -/
def round2 (x : ℚ) : ℚ := (round (x * 100) : ℚ) / 100

/-- `checkExitCondition(candle, entryPrice, isBuy, target, stopLoss)`:
target is checked before stop loss for both directions. -/
def checkExitCondition (candle : Candle) (entryPrice : ℚ) (isBuy : Bool)
    (target stopLoss : ℚ) : Option (ℚ × ExitReason) :=
  if isBuy then
    if candle.high ≥ target then some (target, ExitReason.TARGET)
    else if candle.low ≤ stopLoss then some (stopLoss, ExitReason.STOP_LOSS)
    else none
  else
    if candle.low ≤ target then some (target, ExitReason.TARGET)
    else if candle.high ≥ stopLoss then some (stopLoss, ExitReason.STOP_LOSS)
    else none

/-- The BUY entry object built when `candle.high > dailyHigh`. -/
def buyEntry (dailyHigh tPD sPD : ℚ) (ts : ℕ) (cap : ℚ) : ActiveTrade :=
  { type := TradeType.BUY
    entryPrice := dailyHigh
    entryTime := ts
    target := dailyHigh * (1 + tPD)
    stopLoss := dailyHigh * (1 - sPD)
    isBuy := true
    quantity := ⌊cap / dailyHigh⌋ }

/-- The SELL entry object built when `candle.low < dailyLow`. -/
def sellEntry (dailyLow tPD sPD : ℚ) (ts : ℕ) (cap : ℚ) : ActiveTrade :=
  { type := TradeType.SELL
    entryPrice := dailyLow
    entryTime := ts
    target := dailyLow * (1 - tPD)
    stopLoss := dailyLow * (1 + sPD)
    isBuy := false
    quantity := ⌊cap / dailyLow⌋ }

/-- Exact (unrounded) P&L of closing position `a` at `exitPrice`
(lines computing `pnl` in `processTradingDay`). -/
def tradePnl (a : ActiveTrade) (exitPrice : ℚ) : ℚ :=
  if a.isBuy then (exitPrice - a.entryPrice) * (a.quantity : ℚ)
  else (a.entryPrice - exitPrice) * (a.quantity : ℚ)

/-- Exact percentage return (lines computing `pnlPercent`). -/
def tradePnlPercent (a : ActiveTrade) (exitPrice : ℚ) : ℚ :=
  if a.isBuy then ((exitPrice - a.entryPrice) / a.entryPrice) * 100
  else ((a.entryPrice - exitPrice) / a.entryPrice) * 100

/-- The ledger object pushed onto `trades` (pnl fields are `toFixed(2)`ed). -/
def recordTrade (a : ActiveTrade) (exitPrice : ℚ) (exitTime : ℕ)
    (reason : ExitReason) : Trade :=
  { date := exitTime
    type := a.type
    entryPrice := a.entryPrice
    entryTime := a.entryTime
    exitPrice := exitPrice
    exitTime := exitTime
    exitReason := reason
    quantity := a.quantity
    pnl := round2 (tradePnl a exitPrice)
    pnlPercent := round2 (tradePnlPercent a exitPrice) }

/-- State coming out of the candle loop of `processTradingDay`. -/
structure LoopResult where
  trades : List Trade
  updatedCapital : ℚ
  activeTrade : Option ActiveTrade
  tradeExecuted : Bool
  deriving Repr, DecidableEq

/-- The `for` loop of `processTradingDay`: entry detection while flat
(BUY checked before SELL), exit check on every candle once in a position
(including the entry candle), `break` on the first closed trade. -/
def processLoop (tPD sPD dailyHigh dailyLow : ℚ) :
    List Candle → Option ActiveTrade → Bool → ℚ → LoopResult
  | [], active, executed, cap => ⟨[], cap, active, executed⟩
  | c :: rest, active, executed, cap =>
    let active' : Option ActiveTrade :=
      match active, executed with
      | none, false =>
        if c.high > dailyHigh then
          some (buyEntry dailyHigh tPD sPD c.timestamp cap)
        else if c.low < dailyLow then
          some (sellEntry dailyLow tPD sPD c.timestamp cap)
        else none
      | act, _ => act
    match active' with
    | none => processLoop tPD sPD dailyHigh dailyLow rest none executed cap
    | some a =>
      match checkExitCondition c a.entryPrice a.isBuy a.target a.stopLoss with
      | some pr =>
        ⟨[recordTrade a pr.1 c.timestamp pr.2], cap + tradePnl a pr.1, none, true⟩
      | none => processLoop tPD sPD dailyHigh dailyLow rest (some a) executed cap

/-- `processTradingDay(candles, previousDayLevels, targetPercent,
stopLossPercent, currentCapital)`: guards, the candle loop, and the
end-of-day force close at the last candle's close. -/
def processTradingDay (candles : List Candle) (previousDayLevels : Option Levels)
    (targetPercent stopLossPercent currentCapital : ℚ) : List Trade × ℚ :=
  match previousDayLevels with
  | none => ([], currentCapital)
  | some lv =>
    match candles.getLast? with
    | none => ([], currentCapital)
    | some lastCandle =>
      let r := processLoop (targetPercent / 100) (stopLossPercent / 100)
        lv.dailyHigh lv.dailyLow candles none false currentCapital
      match r.activeTrade, r.tradeExecuted with
      | some a, false =>
        (r.trades ++
          [recordTrade a lastCandle.close lastCandle.timestamp ExitReason.END_OF_DAY],
         r.updatedCapital + tradePnl a lastCandle.close)
      | _, _ => (r.trades, r.updatedCapital)

/-- One step of the drawdown walk in `calculatePerformanceMetrics`. -/
structure DDState where
  runningPnl : ℚ
  peak : ℚ
  maxDrawdown : ℚ
  deriving Repr, DecidableEq

def ddStep (s : DDState) (pnl : ℚ) : DDState :=
  let runningPnl := s.runningPnl + pnl
  let peak := if runningPnl > s.peak then runningPnl else s.peak
  let drawdown := peak - runningPnl
  { runningPnl := runningPnl
    peak := peak
    maxDrawdown := if drawdown > s.maxDrawdown then drawdown else s.maxDrawdown }

structure PerformanceMetrics where
  totalTrades : ℕ
  winningTrades : ℕ
  losingTrades : ℕ
  winRate : ℚ
  totalPnl : ℚ
  averagePnl : ℚ
  bestTrade : Option Trade
  worstTrade : Option Trade
  maxDrawdown : ℚ
  deriving Repr, DecidableEq

/-- `calculatePerformanceMetrics(allTrades)`. The `reduce` calls with no
initial value use the first trade as the accumulator seed. -/
def calculatePerformanceMetrics (allTrades : List Trade) : PerformanceMetrics :=
  match allTrades with
  | [] => ⟨0, 0, 0, 0, 0, 0, none, none, 0⟩
  | t0 :: rest =>
    let all := t0 :: rest
    let winning := all.filter (fun t => t.pnl > 0)
    let losing := all.filter (fun t => t.pnl < 0)
    let totalPnl := all.foldl (fun s t => s + t.pnl) 0
    let averagePnl := totalPnl / (all.length : ℚ)
    let winRate := ((winning.length : ℚ) / (all.length : ℚ)) * 100
    let bestTrade := rest.foldl (fun best cur => if cur.pnl > best.pnl then cur else best) t0
    let worstTrade := rest.foldl (fun worst cur => if cur.pnl < worst.pnl then cur else worst) t0
    let dd := (all.foldl (fun s t => ddStep s t.pnl) ⟨0, 0, 0⟩).maxDrawdown
    { totalTrades := all.length
      winningTrades := winning.length
      losingTrades := losing.length
      winRate := round2 winRate
      totalPnl := round2 totalPnl
      averagePnl := round2 averagePnl
      bestTrade := some bestTrade
      worstTrade := some worstTrade
      maxDrawdown := round2 dd }

/-- Inputs the backtest driver fetches for one trading day. -/
structure DayData where
  previousDayLevels : Option Levels
  candles : List Candle

/-- Accumulator of the day loop in `runStrategy`. -/
structure RunState where
  allTrades : List Trade
  skippedDays : List ℕ
  currentCapital : ℚ

/-- The day loop of `runStrategy`: skip (and record) days without prior
levels or without candles; otherwise simulate the day and, when it produced
trades, append them and adopt the returned capital. -/
def runDays (targetPercent stopLossPercent : ℚ) :
    List (ℕ × DayData) → RunState → RunState
  | [], s => s
  | (day, d) :: rest, s =>
    match d.previousDayLevels with
    | none => runDays targetPercent stopLossPercent rest
        { s with skippedDays := s.skippedDays ++ [day] }
    | some lv =>
      match d.candles with
      | [] => runDays targetPercent stopLossPercent rest
          { s with skippedDays := s.skippedDays ++ [day] }
      | c0 :: cs =>
        let result := processTradingDay (c0 :: cs) (some lv)
          targetPercent stopLossPercent s.currentCapital
        if result.1.length > 0 then
          runDays targetPercent stopLossPercent rest
            { allTrades := s.allTrades ++ result.1
              skippedDays := s.skippedDays
              currentCapital := result.2 }
        else
          runDays targetPercent stopLossPercent rest s

/-- Exact per-trade P&L reconstructed from a ledger entry's stored fields
(`(exitPrice - entryPrice) * quantity`, negated for SELL). -/
def exactPnl (t : Trade) : ℚ :=
  match t.type with
  | TradeType.BUY => (t.exitPrice - t.entryPrice) * (t.quantity : ℚ)
  | TradeType.SELL => (t.entryPrice - t.exitPrice) * (t.quantity : ℚ)

/-- Consistency of the `type` tag with the `isBuy` flag of a position;
both entry constructors establish it. -/
def activeWf (a : ActiveTrade) : Prop :=
  (a.isBuy = true → a.type = TradeType.BUY) ∧
  (a.isBuy = false → a.type = TradeType.SELL)

/-- Timestamp order used by the seed script's comparator. -/
def tsLE (a b : Candle) : Prop := a.timestamp ≤ b.timestamp

instance : DecidableRel tsLE := fun a b =>
  inferInstanceAs (Decidable (a.timestamp ≤ b.timestamp))

instance : IsTotal Candle tsLE := ⟨fun a b => Nat.le_total a.timestamp b.timestamp⟩

instance : IsTrans Candle tsLE := ⟨fun _ _ _ => Nat.le_trans⟩

/-- One group body of `seedDailySummaries`: sort the day's candles by
timestamp, take `Math.max` of highs / `Math.min` of lows, the first
candle's open, the last candle's close, and the summed volume. -/
structure DailySummary where
  dailyHigh : ℚ
  dailyLow : ℚ
  open_ : ℚ
  close : ℚ
  totalVolume : ℕ
  deriving Repr, DecidableEq

def seedDailySummary (dayCandles : List Candle) : Option DailySummary :=
  let sorted := List.insertionSort tsLE dayCandles
  match sorted, sorted.getLast? with
  | first :: restS, some last =>
    some { dailyHigh := restS.foldl (fun m x => max m x.high) first.high
           dailyLow := restS.foldl (fun m x => min m x.low) first.low
           open_ := first.open_
           close := last.close
           totalVolume := (first :: restS).foldl (fun s x => s + x.volume) 0 }
  | _, _ => none

/-! ### Helper lemmas about the candle loop -/

theorem processLoop_nil (tPD sPD dH dL : ℚ) (active : Option ActiveTrade)
    (ex : Bool) (cap : ℚ) :
    processLoop tPD sPD dH dL [] active ex cap = ⟨[], cap, active, ex⟩ := rfl

theorem processLoop_cons_no_trigger (tPD sPD dH dL : ℚ) (c : Candle)
    (rest : List Candle) (cap : ℚ) (h1 : ¬ dH < c.high) (h2 : ¬ c.low < dL) :
    processLoop tPD sPD dH dL (c :: rest) none false cap
      = processLoop tPD sPD dH dL rest none false cap := by
  simp only [processLoop, if_neg h1, if_neg h2]

theorem processLoop_no_trigger_skip (tPD sPD dH dL : ℚ) (pre l2 : List Candle)
    (cap : ℚ) (h : ∀ x ∈ pre, ¬ dH < x.high ∧ ¬ x.low < dL) :
    processLoop tPD sPD dH dL (pre ++ l2) none false cap
      = processLoop tPD sPD dH dL l2 none false cap := by
  induction pre with
  | nil => rfl
  | cons c pre ih =>
    have hc := h c (List.mem_cons_self c pre)
    rw [List.cons_append, processLoop_cons_no_trigger _ _ _ _ _ _ _ hc.1 hc.2]
    exact ih (fun x hx => h x (List.mem_cons_of_mem c hx))

theorem processLoop_entry_buy (tPD sPD dH dL : ℚ) (c : Candle)
    (rest : List Candle) (cap : ℚ) (h : dH < c.high) :
    processLoop tPD sPD dH dL (c :: rest) none false cap
      = processLoop tPD sPD dH dL (c :: rest)
          (some (buyEntry dH tPD sPD c.timestamp cap)) false cap := by
  conv_rhs => rw [processLoop]
  simp only [processLoop, if_pos h]

theorem processLoop_entry_sell (tPD sPD dH dL : ℚ) (c : Candle)
    (rest : List Candle) (cap : ℚ) (h1 : ¬ dH < c.high) (h2 : c.low < dL) :
    processLoop tPD sPD dH dL (c :: rest) none false cap
      = processLoop tPD sPD dH dL (c :: rest)
          (some (sellEntry dL tPD sPD c.timestamp cap)) false cap := by
  conv_rhs => rw [processLoop]
  simp only [processLoop, if_neg h1, if_pos h2]

theorem processLoop_some_cons_no_exit (tPD sPD dH dL : ℚ) (c : Candle)
    (rest : List Candle) (a : ActiveTrade) (ex : Bool) (cap : ℚ)
    (h : checkExitCondition c a.entryPrice a.isBuy a.target a.stopLoss = none) :
    processLoop tPD sPD dH dL (c :: rest) (some a) ex cap
      = processLoop tPD sPD dH dL rest (some a) ex cap := by
  simp only [processLoop, h]

theorem processLoop_some_cons_exit (tPD sPD dH dL : ℚ) (c : Candle)
    (rest : List Candle) (a : ActiveTrade) (ex : Bool) (cap : ℚ)
    (pr : ℚ × ExitReason)
    (h : checkExitCondition c a.entryPrice a.isBuy a.target a.stopLoss = some pr) :
    processLoop tPD sPD dH dL (c :: rest) (some a) ex cap
      = ⟨[recordTrade a pr.1 c.timestamp pr.2], cap + tradePnl a pr.1, none, true⟩ := by
  simp only [processLoop, h]

theorem processLoop_some_no_exit (tPD sPD dH dL : ℚ) (l : List Candle)
    (a : ActiveTrade) (ex : Bool) (cap : ℚ)
    (h : ∀ x ∈ l, checkExitCondition x a.entryPrice a.isBuy a.target a.stopLoss = none) :
    processLoop tPD sPD dH dL l (some a) ex cap = ⟨[], cap, some a, ex⟩ := by
  induction l with
  | nil => rfl
  | cons c rest ih =>
    rw [processLoop_some_cons_no_exit _ _ _ _ _ _ _ _ _ (h c (List.mem_cons_self c rest))]
    exact ih (fun x hx => h x (List.mem_cons_of_mem c hx))

theorem processLoop_some_first_exit (tPD sPD dH dL : ℚ) (p : List Candle)
    (e : Candle) (q : List Candle) (a : ActiveTrade) (ex : Bool) (cap : ℚ)
    (pr : ℚ × ExitReason)
    (hp : ∀ x ∈ p, checkExitCondition x a.entryPrice a.isBuy a.target a.stopLoss = none)
    (he : checkExitCondition e a.entryPrice a.isBuy a.target a.stopLoss = some pr) :
    processLoop tPD sPD dH dL (p ++ e :: q) (some a) ex cap
      = ⟨[recordTrade a pr.1 e.timestamp pr.2], cap + tradePnl a pr.1, none, true⟩ := by
  induction p with
  | nil => exact processLoop_some_cons_exit _ _ _ _ _ _ _ _ _ _ he
  | cons c pre ih =>
    rw [List.cons_append,
      processLoop_some_cons_no_exit _ _ _ _ _ _ _ _ _ (hp c (List.mem_cons_self c pre))]
    exact ih (fun x hx => hp x (List.mem_cons_of_mem c hx))

theorem processLoop_some_cases (tPD sPD dH dL : ℚ) (l : List Candle)
    (a : ActiveTrade) (ex : Bool) (cap : ℚ) :
    processLoop tPD sPD dH dL l (some a) ex cap = ⟨[], cap, some a, ex⟩
    ∨ ∃ p ts r, processLoop tPD sPD dH dL l (some a) ex cap
        = ⟨[recordTrade a p ts r], cap + tradePnl a p, none, true⟩ := by
  induction l with
  | nil => exact Or.inl rfl
  | cons c rest ih =>
    cases h : checkExitCondition c a.entryPrice a.isBuy a.target a.stopLoss with
    | none =>
      rw [processLoop_some_cons_no_exit _ _ _ _ _ _ _ _ _ h]
      exact ih
    | some pr =>
      rw [processLoop_some_cons_exit _ _ _ _ _ _ _ _ _ _ h]
      exact Or.inr ⟨pr.1, c.timestamp, pr.2, rfl⟩

theorem processLoop_cons_none_true (tPD sPD dH dL : ℚ) (c : Candle)
    (rest : List Candle) (cap : ℚ) :
    processLoop tPD sPD dH dL (c :: rest) none true cap
      = processLoop tPD sPD dH dL rest none true cap := rfl

theorem processLoop_shape (tPD sPD dH dL : ℚ) (l : List Candle) :
    ∀ (active : Option ActiveTrade) (ex : Bool) (cap : ℚ),
    (processLoop tPD sPD dH dL l active ex cap).trades.length ≤ 1 ∧
    ((processLoop tPD sPD dH dL l active ex cap).activeTrade.isSome →
      (processLoop tPD sPD dH dL l active ex cap).trades = [] ∧
      (processLoop tPD sPD dH dL l active ex cap).tradeExecuted = ex) := by
  induction l with
  | nil =>
    intro active ex cap
    exact ⟨Nat.zero_le 1, fun _ => ⟨rfl, rfl⟩⟩
  | cons c rest ih =>
    intro active ex cap
    have step : ∀ (a : ActiveTrade),
        (processLoop tPD sPD dH dL (c :: rest) (some a) ex cap).trades.length ≤ 1 ∧
        ((processLoop tPD sPD dH dL (c :: rest) (some a) ex cap).activeTrade.isSome →
          (processLoop tPD sPD dH dL (c :: rest) (some a) ex cap).trades = [] ∧
          (processLoop tPD sPD dH dL (c :: rest) (some a) ex cap).tradeExecuted = ex) := by
      intro a
      cases h : checkExitCondition c a.entryPrice a.isBuy a.target a.stopLoss with
      | none =>
        rw [processLoop_some_cons_no_exit _ _ _ _ _ _ _ _ _ h]
        exact ih (some a) ex cap
      | some pr =>
        rw [processLoop_some_cons_exit _ _ _ _ _ _ _ _ _ _ h]
        exact ⟨Nat.le_refl 1, fun hs => by simp [processLoop] at hs⟩
    cases active with
    | some a => exact step a
    | none =>
      cases ex with
      | true =>
        rw [processLoop_cons_none_true]
        exact ih none true cap
      | false =>
        by_cases h1 : dH < c.high
        · rw [processLoop_entry_buy _ _ _ _ _ _ _ h1]
          exact step _
        · by_cases h2 : c.low < dL
          · rw [processLoop_entry_sell _ _ _ _ _ _ _ h1 h2]
            exact step _
          · rw [processLoop_cons_no_trigger _ _ _ _ _ _ _ h1 h2]
            exact ih none false cap

theorem buyEntry_wf (dailyHigh tPD sPD : ℚ) (ts : ℕ) (cap : ℚ) :
    activeWf (buyEntry dailyHigh tPD sPD ts cap) :=
  ⟨fun _ => rfl, fun h => by simp [buyEntry] at h⟩

theorem sellEntry_wf (dailyLow tPD sPD : ℚ) (ts : ℕ) (cap : ℚ) :
    activeWf (sellEntry dailyLow tPD sPD ts cap) :=
  ⟨fun h => by simp [sellEntry] at h, fun _ => rfl⟩

theorem exactPnl_recordTrade (a : ActiveTrade) (p : ℚ) (ts : ℕ) (r : ExitReason)
    (hw : activeWf a) : exactPnl (recordTrade a p ts r) = tradePnl a p := by
  cases hb : a.isBuy with
  | true => simp [exactPnl, recordTrade, tradePnl, hb, hw.1 hb]
  | false => simp [exactPnl, recordTrade, tradePnl, hb, hw.2 hb]

theorem processLoop_capital (tPD sPD dH dL : ℚ) (l : List Candle) :
    ∀ (active : Option ActiveTrade) (ex : Bool) (cap : ℚ),
    (∀ a, active = some a → activeWf a) →
    (processLoop tPD sPD dH dL l active ex cap).updatedCapital
      = cap + ((processLoop tPD sPD dH dL l active ex cap).trades.map exactPnl).sum ∧
    (∀ a, (processLoop tPD sPD dH dL l active ex cap).activeTrade = some a → activeWf a) := by
  induction l with
  | nil =>
    intro active ex cap hw
    refine ⟨by simp [processLoop_nil], ?_⟩
    intro a ha
    exact hw a ha
  | cons c rest ih =>
    intro active ex cap hw
    have step : ∀ (a : ActiveTrade), activeWf a →
        (processLoop tPD sPD dH dL (c :: rest) (some a) ex cap).updatedCapital
          = cap + ((processLoop tPD sPD dH dL (c :: rest) (some a) ex cap).trades.map exactPnl).sum ∧
        (∀ b, (processLoop tPD sPD dH dL (c :: rest) (some a) ex cap).activeTrade = some b → activeWf b) := by
      intro a ha
      cases h : checkExitCondition c a.entryPrice a.isBuy a.target a.stopLoss with
      | none =>
        rw [processLoop_some_cons_no_exit _ _ _ _ _ _ _ _ _ h]
        exact ih (some a) ex cap (fun b hb => by
          rw [Option.some_inj] at hb
          exact hb ▸ ha)
      | some pr =>
        rw [processLoop_some_cons_exit _ _ _ _ _ _ _ _ _ _ h]
        refine ⟨by simp [exactPnl_recordTrade _ _ _ _ ha], ?_⟩
        intro b hb
        simp at hb
    cases active with
    | some a => exact step a (hw a rfl)
    | none =>
      cases ex with
      | true =>
        rw [processLoop_cons_none_true]
        exact ih none true cap (fun b hb => by simp at hb)
      | false =>
        by_cases h1 : dH < c.high
        · rw [processLoop_entry_buy _ _ _ _ _ _ _ h1]
          exact step _ (buyEntry_wf _ _ _ _ _)
        · by_cases h2 : c.low < dL
          · rw [processLoop_entry_sell _ _ _ _ _ _ _ h1 h2]
            exact step _ (sellEntry_wf _ _ _ _ _)
          · rw [processLoop_cons_no_trigger _ _ _ _ _ _ _ h1 h2]
            exact ih none false cap (fun b hb => by simp at hb)

theorem processTradingDay_eq (candles : List Candle) (lv : Levels)
    (tP sP cap : ℚ) (lastC : Candle) (hl : candles.getLast? = some lastC) :
    processTradingDay candles (some lv) tP sP cap =
      (match (processLoop (tP / 100) (sP / 100) lv.dailyHigh lv.dailyLow
          candles none false cap).activeTrade,
        (processLoop (tP / 100) (sP / 100) lv.dailyHigh lv.dailyLow
          candles none false cap).tradeExecuted with
      | some a, false =>
        ((processLoop (tP / 100) (sP / 100) lv.dailyHigh lv.dailyLow
            candles none false cap).trades ++
          [recordTrade a lastC.close lastC.timestamp ExitReason.END_OF_DAY],
         (processLoop (tP / 100) (sP / 100) lv.dailyHigh lv.dailyLow
            candles none false cap).updatedCapital + tradePnl a lastC.close)
      | _, _ =>
        ((processLoop (tP / 100) (sP / 100) lv.dailyHigh lv.dailyLow
            candles none false cap).trades,
         (processLoop (tP / 100) (sP / 100) lv.dailyHigh lv.dailyLow
            candles none false cap).updatedCapital)) := by
  simp only [processTradingDay, hl]

theorem processTradingDay_capital (candles : List Candle) (lv : Option Levels)
    (tP sP cap : ℚ) :
    (processTradingDay candles lv tP sP cap).2
      = cap + ((processTradingDay candles lv tP sP cap).1.map exactPnl).sum := by
  cases lv with
  | none => simp [processTradingDay]
  | some lv =>
    cases hl : candles.getLast? with
    | none => simp [processTradingDay, hl]
    | some lastC =>
      rw [processTradingDay_eq _ _ _ _ _ _ hl]
      obtain ⟨hcap, hwf⟩ := processLoop_capital (tP / 100) (sP / 100) lv.dailyHigh
        lv.dailyLow candles none false cap (fun a ha => by simp at ha)
      cases hA : (processLoop (tP / 100) (sP / 100) lv.dailyHigh lv.dailyLow
          candles none false cap).activeTrade with
      | none => simpa [hA] using hcap
      | some a =>
        cases hE : (processLoop (tP / 100) (sP / 100) lv.dailyHigh lv.dailyLow
            candles none false cap).tradeExecuted with
        | true => simpa [hA, hE] using hcap
        | false =>
          simp only [hA, hE]
          simp [List.map_append, hcap, exactPnl_recordTrade _ _ _ _ (hwf a hA)]
          ring

theorem processTradingDay_no_trigger (dH dL tP sP cap : ℚ) (candles : List Candle)
    (hne : candles ≠ [])
    (h : ∀ x ∈ candles, ¬ dH < x.high ∧ ¬ x.low < dL) :
    processTradingDay candles (some ⟨dH, dL⟩) tP sP cap = ([], cap) := by
  rw [processTradingDay_eq candles ⟨dH, dL⟩ tP sP cap (candles.getLast hne)
    (List.getLast?_eq_getLast_of_ne_nil hne)]
  have hloop : processLoop (tP / 100) (sP / 100) dH dL candles none false cap
      = ⟨[], cap, none, false⟩ := by
    have hskip := processLoop_no_trigger_skip (tP / 100) (sP / 100) dH dL candles [] cap h
    rw [List.append_nil] at hskip
    rw [hskip, processLoop_nil]
  rw [hloop]

theorem processTradingDay_entered (dH dL tP sP cap : ℚ) (pre : List Candle)
    (c : Candle) (post : List Candle)
    (hpre : ∀ x ∈ pre, ¬ dH < x.high ∧ ¬ x.low < dL)
    (hc : dH < c.high ∨ c.low < dL) :
    ∃ p ts r,
      processTradingDay (pre ++ c :: post) (some ⟨dH, dL⟩) tP sP cap
        = ([recordTrade (if dH < c.high then
              buyEntry dH (tP / 100) (sP / 100) c.timestamp cap
            else sellEntry dL (tP / 100) (sP / 100) c.timestamp cap) p ts r],
           cap + tradePnl (if dH < c.high then
              buyEntry dH (tP / 100) (sP / 100) c.timestamp cap
            else sellEntry dL (tP / 100) (sP / 100) c.timestamp cap) p) := by
  have hlast : (pre ++ c :: post).getLast?
      = some ((c :: post).getLast (List.cons_ne_nil c post)) := by
    rw [List.getLast?_append_cons,
      List.getLast?_eq_getLast_of_ne_nil (List.cons_ne_nil c post)]
  rw [processTradingDay_eq _ _ _ _ _ _ hlast,
    processLoop_no_trigger_skip _ _ _ _ _ _ _ hpre]
  by_cases h1 : dH < c.high
  · rw [if_pos h1, processLoop_entry_buy _ _ _ _ _ _ _ h1]
    rcases processLoop_some_cases (tP / 100) (sP / 100) dH dL (c :: post)
        (buyEntry dH (tP / 100) (sP / 100) c.timestamp cap) false cap with
      hcase | ⟨p, ts, r, hcase⟩
    · rw [hcase]
      exact ⟨((c :: post).getLast (List.cons_ne_nil c post)).close,
        ((c :: post).getLast (List.cons_ne_nil c post)).timestamp,
        ExitReason.END_OF_DAY, rfl⟩
    · rw [hcase]
      exact ⟨p, ts, r, rfl⟩
  · have h2 : c.low < dL := hc.resolve_left h1
    rw [if_neg h1, processLoop_entry_sell _ _ _ _ _ _ _ h1 h2]
    rcases processLoop_some_cases (tP / 100) (sP / 100) dH dL (c :: post)
        (sellEntry dL (tP / 100) (sP / 100) c.timestamp cap) false cap with
      hcase | ⟨p, ts, r, hcase⟩
    · rw [hcase]
      exact ⟨((c :: post).getLast (List.cons_ne_nil c post)).close,
        ((c :: post).getLast (List.cons_ne_nil c post)).timestamp,
        ExitReason.END_OF_DAY, rfl⟩
    · rw [hcase]
      exact ⟨p, ts, r, rfl⟩

/-! ### Claim theorems -/

/-- C4: for every candle list, levels, parameters and capital, the day
simulator's trade list has length at most one — a second trade is never
recorded for the same day. -/
theorem processTradingDay_at_most_one_trade (candles : List Candle)
    (lv : Option Levels) (tP sP cap : ℚ) :
    (processTradingDay candles lv tP sP cap).1.length ≤ 1 := by
  cases lv with
  | none => simp [processTradingDay]
  | some lv =>
    cases hl : candles.getLast? with
    | none => simp [processTradingDay, hl]
    | some lastC =>
      rw [processTradingDay_eq _ _ _ _ _ _ hl]
      obtain ⟨hlen, hact⟩ := processLoop_shape (tP / 100) (sP / 100) lv.dailyHigh
        lv.dailyLow candles none false cap
      cases hA : (processLoop (tP / 100) (sP / 100) lv.dailyHigh lv.dailyLow
          candles none false cap).activeTrade with
      | none => simpa [hA] using hlen
      | some a =>
        cases hE : (processLoop (tP / 100) (sP / 100) lv.dailyHigh lv.dailyLow
            candles none false cap).tradeExecuted with
        | true => simpa [hA, hE] using hlen
        | false =>
          have hnil := (hact (by simp [hA])).1
          simp [hA, hE, hnil]

/-- C1: on a day whose first breakout candle is `c` (every earlier candle
neither exceeds the previous high nor breaks the previous low), exactly one
position is opened, on `c`: a BUY at `entryPrice = dailyHigh` when
`c.high > dailyHigh`, otherwise (only when the BUY test fails) a SELL at
`entryPrice = dailyLow` when `c.low < dailyLow`; its quantity is
`floor(capitalIn / entryPrice)`. -/
theorem entry_first_trigger_spec (dH dL tP sP cap : ℚ) (pre : List Candle)
    (c : Candle) (post : List Candle)
    (hpre : ∀ x ∈ pre, ¬ dH < x.high ∧ ¬ x.low < dL)
    (hc : dH < c.high ∨ c.low < dL) :
    ∃ t, (processTradingDay (pre ++ c :: post) (some ⟨dH, dL⟩) tP sP cap).1 = [t] ∧
      t.entryTime = c.timestamp ∧
      (if dH < c.high then
        t.type = TradeType.BUY ∧ t.entryPrice = dH ∧ t.quantity = ⌊cap / dH⌋
      else
        t.type = TradeType.SELL ∧ t.entryPrice = dL ∧ t.quantity = ⌊cap / dL⌋) := by
  obtain ⟨p, ts, r, heq⟩ := processTradingDay_entered dH dL tP sP cap pre c post hpre hc
  by_cases h1 : dH < c.high
  · rw [if_pos h1] at heq
    refine ⟨_, by rw [heq], ?_, ?_⟩
    · simp [recordTrade, buyEntry]
    · rw [if_pos h1]
      exact ⟨rfl, rfl, rfl⟩
  · rw [if_neg h1] at heq
    refine ⟨_, by rw [heq], ?_, ?_⟩
    · simp [recordTrade, sellEntry]
    · rw [if_neg h1]
      exact ⟨rfl, rfl, rfl⟩

/-- C1 witness: previous high 100 / low 90; the first candle stays inside the
range, the second has high 100.5, so a single BUY opens there with entry
price 100 and quantity `floor(1000 / 100) = 10`. -/
theorem entry_first_trigger_spec_witness :
    ∃ t, (processTradingDay
        ([⟨1, 99, 199/2, 95, 98, 0⟩] ++ ⟨2, 100, 201/2, 99, 100, 0⟩ :: [])
        (some ⟨100, 90⟩) (1/5) (1/5) 1000).1 = [t] ∧
      t.entryTime = 2 ∧
      (if (100 : ℚ) < (⟨2, 100, 201/2, 99, 100, 0⟩ : Candle).high then
        t.type = TradeType.BUY ∧ t.entryPrice = 100 ∧ t.quantity = ⌊(1000 : ℚ) / 100⌋
      else
        t.type = TradeType.SELL ∧ t.entryPrice = 90 ∧ t.quantity = ⌊(1000 : ℚ) / 90⌋) := by
  refine entry_first_trigger_spec 100 90 (1/5) (1/5) 1000
    [⟨1, 99, 199/2, 95, 98, 0⟩] ⟨2, 100, 201/2, 99, 100, 0⟩ [] ?_ ?_
  · intro x hx
    rw [List.mem_singleton] at hx
    subst hx
    exact ⟨by norm_num, by norm_num⟩
  · left
    norm_num

/-- C9: when the first breakout candle fires with
`floor(capitalIn / entryPrice) = 0`, the trade is still recorded in the
ledger and its recorded `pnl` is `0`. -/
theorem zero_quantity_trade_recorded (dH dL tP sP cap : ℚ) (pre : List Candle)
    (c : Candle) (post : List Candle)
    (hpre : ∀ x ∈ pre, ¬ dH < x.high ∧ ¬ x.low < dL)
    (hc : dH < c.high ∨ c.low < dL)
    (hq : (if dH < c.high then ⌊cap / dH⌋ else ⌊cap / dL⌋) = 0) :
    ∃ t, (processTradingDay (pre ++ c :: post) (some ⟨dH, dL⟩) tP sP cap).1 = [t] ∧
      t.quantity = 0 ∧ t.pnl = 0 := by
  obtain ⟨p, ts, r, heq⟩ := processTradingDay_entered dH dL tP sP cap pre c post hpre hc
  by_cases h1 : dH < c.high
  · rw [if_pos h1] at heq hq
    refine ⟨_, by rw [heq], ?_, ?_⟩
    · simpa [recordTrade, buyEntry] using hq
    · simp [recordTrade, tradePnl, buyEntry, hq, round2]
  · rw [if_neg h1] at heq hq
    refine ⟨_, by rw [heq], ?_, ?_⟩
    · simpa [recordTrade, sellEntry] using hq
    · simp [recordTrade, tradePnl, sellEntry, hq, round2]

/-- C9 witness: previous high 100, capital 50 < 100; the breakout candle
produces a recorded trade with quantity 0 and pnl 0. -/
theorem zero_quantity_trade_recorded_witness :
    ∃ t, (processTradingDay ([] ++ ⟨2, 100, 201/2, 99, 100, 0⟩ :: [])
        (some ⟨100, 90⟩) (1/5) (1/5) 50).1 = [t] ∧
      t.quantity = 0 ∧ t.pnl = 0 := by
  refine zero_quantity_trade_recorded 100 90 (1/5) (1/5) 50 []
    ⟨2, 100, 201/2, 99, 100, 0⟩ [] (by simp) (by left; norm_num) ?_
  rw [if_pos (by norm_num)]
  rw [Int.floor_eq_iff] <;> norm_num

/-- C6: on a day whose candles never exceed the previous high nor break the
previous low, the simulator returns no trades and the same capital, and the
backtest driver's day step is a no-op on its state: the running capital is
untouched and the day is not recorded in `skippedDays`. -/
theorem no_signal_day_is_noop (dH dL tP sP cap : ℚ) (candles : List Candle)
    (hne : candles ≠ [])
    (h : ∀ x ∈ candles, ¬ dH < x.high ∧ ¬ x.low < dL)
    (day : ℕ) (rest : List (ℕ × DayData)) (s : RunState)
    (hs : s.currentCapital = cap) :
    processTradingDay candles (some ⟨dH, dL⟩) tP sP cap = ([], cap) ∧
    runDays tP sP ((day, ⟨some ⟨dH, dL⟩, candles⟩) :: rest) s = runDays tP sP rest s := by
  refine ⟨processTradingDay_no_trigger dH dL tP sP cap candles hne h, ?_⟩
  obtain ⟨c0, cs, rfl⟩ := List.exists_cons_of_ne_nil hne
  have hday : processTradingDay (c0 :: cs) (some ⟨dH, dL⟩) tP sP s.currentCapital
      = ([], s.currentCapital) := by
    rw [hs]
    exact processTradingDay_no_trigger dH dL tP sP cap (c0 :: cs) hne h
  simp only [runDays, hday]
  simp

/-- C6 witness: previous high 100 / low 90, one inside candle; the day is a
no-op for the simulator and for the driver state. -/
theorem no_signal_day_is_noop_witness :
    processTradingDay [⟨1, 95, 96, 94, 95, 7⟩] (some ⟨100, 90⟩) (1/5) (1/5) 1000
        = ([], 1000) ∧
    runDays (1/5) (1/5) [(3, ⟨some ⟨100, 90⟩, [⟨1, 95, 96, 94, 95, 7⟩]⟩)]
        ⟨[], [], 1000⟩ = runDays (1/5) (1/5) [] ⟨[], [], 1000⟩ := by
  refine no_signal_day_is_noop 100 90 (1/5) (1/5) 1000 [⟨1, 95, 96, 94, 95, 7⟩]
    (by simp) ?_ 3 [] ⟨[], [], 1000⟩ rfl
  intro x hx
  rw [List.mem_singleton] at hx
  subst hx
  exact ⟨by norm_num, by norm_num⟩

/-- C3 counterexample: previous high 100.01, capital 1000, a candle that
breaks out and reaches the target on the same bar. The day's single ledger
entry has `pnl = 1.80` (rounded) but the capital changes by `1.80018`, so
`capitalOut - capitalIn` is not the ledger-recorded `pnl` field. -/
theorem capital_vs_ledger_pnl_counterexample :
    ((processTradingDay [⟨1, 100, 101, 201/2, 100, 5⟩] (some ⟨10001/100, 90⟩)
        (1/5) (1/5) 1000).1.map Trade.pnl = [9/5]) ∧
      (processTradingDay [⟨1, 100, 101, 201/2, 100, 5⟩] (some ⟨10001/100, 90⟩)
        (1/5) (1/5) 1000).2 - 1000 ≠ 9/5 := by
  norm_num [processTradingDay, processLoop, checkExitCondition, buyEntry,
    recordTrade, tradePnl, tradePnlPercent, round2, round_eq]

/-- C3 (amended): the day simulator's capital change `capitalOut - capitalIn`
equals the sum of the exact per-trade P&L of the day's recorded trades
(`(exitPrice - entryPrice) * quantity`, negated for SELL) — `0` when no trade
was produced; the ledger's `pnl` field is that value rounded to two decimals
and can differ from the capital change. -/
theorem capital_change_eq_exact_pnl (candles : List Candle) (lv : Option Levels)
    (tP sP cap : ℚ) :
    (processTradingDay candles lv tP sP cap).2 - cap
      = ((processTradingDay candles lv tP sP cap).1.map exactPnl).sum := by
  rw [processTradingDay_capital]
  ring

theorem runDays_acc (tP sP : ℚ) (days : List (ℕ × DayData)) :
    ∀ s : RunState, ∃ l2 : List Trade,
      (runDays tP sP days s).allTrades = s.allTrades ++ l2 ∧
      (runDays tP sP days s).currentCapital
        = s.currentCapital + (l2.map exactPnl).sum := by
  induction days with
  | nil => exact fun s => ⟨[], by simp [runDays], by simp [runDays]⟩
  | cons d rest ih =>
    intro s
    obtain ⟨day, dd⟩ := d
    cases hlv : dd.previousDayLevels with
    | none =>
      obtain ⟨l2, h1, h2⟩ := ih ⟨s.allTrades, s.skippedDays ++ [day], s.currentCapital⟩
      exact ⟨l2, by simpa [runDays, hlv] using h1, by simpa [runDays, hlv] using h2⟩
    | some lv =>
      cases hcs : dd.candles with
      | nil =>
        obtain ⟨l2, h1, h2⟩ := ih ⟨s.allTrades, s.skippedDays ++ [day], s.currentCapital⟩
        exact ⟨l2, by simpa [runDays, hlv, hcs] using h1,
          by simpa [runDays, hlv, hcs] using h2⟩
      | cons c0 cs =>
        have hcap := processTradingDay_capital (c0 :: cs) (some lv) tP sP s.currentCapital
        by_cases hlen :
            (processTradingDay (c0 :: cs) (some lv) tP sP s.currentCapital).1.length > 0
        · obtain ⟨l2, h1, h2⟩ := ih
            ⟨s.allTrades ++ (processTradingDay (c0 :: cs) (some lv) tP sP s.currentCapital).1,
             s.skippedDays,
             (processTradingDay (c0 :: cs) (some lv) tP sP s.currentCapital).2⟩
          refine ⟨(processTradingDay (c0 :: cs) (some lv) tP sP s.currentCapital).1 ++ l2,
            ?_, ?_⟩
          · simp only [runDays, hlv, hcs, if_pos hlen]
            simp only at h1
            rw [h1, List.append_assoc]
          · simp only [runDays, hlv, hcs, if_pos hlen]
            simp only at h2
            rw [h2, hcap]
            simp [List.sum_append]
            ring
        · obtain ⟨l2, h1, h2⟩ := ih s
          refine ⟨l2, ?_, ?_⟩
          · simp only [runDays, hlv, hcs, if_neg hlen]
            exact h1
          · simp only [runDays, hlv, hcs, if_neg hlen]
            exact h2

/-- C10: the driver compounds the exact (unrounded) per-trade P&L, so the
final capital is the starting capital plus the sum of exact per-trade P&L
over the ledger; the second conjunct exhibits a run where this differs from
the starting capital plus the sum of the ledger's rounded `pnl` fields. -/
theorem finalCapital_exact_pnl_sum (tP sP : ℚ) (days : List (ℕ × DayData))
    (cap0 : ℚ) :
    (runDays tP sP days ⟨[], [], cap0⟩).currentCapital
      = cap0 + ((runDays tP sP days ⟨[], [], cap0⟩).allTrades.map exactPnl).sum
    ∧ (runDays (1/5) (1/5)
          [(0, ⟨some ⟨10001/100, 90⟩, [⟨1, 100, 101, 201/2, 100, 5⟩]⟩)]
          ⟨[], [], 1000⟩).currentCapital
        ≠ 1000 + ((runDays (1/5) (1/5)
          [(0, ⟨some ⟨10001/100, 90⟩, [⟨1, 100, 101, 201/2, 100, 5⟩]⟩)]
          ⟨[], [], 1000⟩).allTrades.map Trade.pnl).sum := by
  constructor
  · obtain ⟨l2, h1, h2⟩ := runDays_acc tP sP days ⟨[], [], cap0⟩
    rw [h1, h2]
    simp
  · norm_num [runDays, processTradingDay, processLoop, checkExitCondition,
      buyEntry, recordTrade, tradePnl, tradePnlPercent, round2, round_eq]

theorem checkExit_none_of_buy (x : Candle) (e tgt stp : ℚ)
    (h1 : ¬ x.high ≥ tgt) (h2 : ¬ x.low ≤ stp) :
    checkExitCondition x e true tgt stp = none := by
  simp [checkExitCondition, h1, h2]

theorem checkExit_none_of_sell (x : Candle) (e tgt stp : ℚ)
    (h1 : ¬ x.low ≤ tgt) (h2 : ¬ x.high ≥ stp) :
    checkExitCondition x e false tgt stp = none := by
  simp [checkExitCondition, h1, h2]

/-- C2: once a position opens on candle `c` (the first breakout candle),
exit evaluation starts on `c` itself: on the first candle `e` that satisfies
either exit condition the trade closes, at the target (reason TARGET) when
the target condition holds on `e` — target is checked before stop-loss — and
otherwise at the stop loss (reason STOP_LOSS). For a BUY the target
condition is `high ≥ entry * (1 + target%/100)` and the stop condition
`low ≤ entry * (1 - stop%/100)`; for a SELL they are
`low ≤ entry * (1 - target%/100)` and `high ≥ entry * (1 + stop%/100)`. -/
theorem exit_priority_spec (dH dL tP sP cap : ℚ) (pre : List Candle)
    (c : Candle) (rest epre : List Candle) (e : Candle) (epost : List Candle)
    (hpre : ∀ x ∈ pre, ¬ dH < x.high ∧ ¬ x.low < dL)
    (hsplit : c :: rest = epre ++ e :: epost) :
    (dH < c.high →
      (∀ x ∈ epre, ¬ x.high ≥ dH * (1 + tP / 100) ∧ ¬ x.low ≤ dH * (1 - sP / 100)) →
      (e.high ≥ dH * (1 + tP / 100) ∨ e.low ≤ dH * (1 - sP / 100)) →
      ∃ t, (processTradingDay (pre ++ c :: rest) (some ⟨dH, dL⟩) tP sP cap).1 = [t] ∧
        t.exitTime = e.timestamp ∧
        (if e.high ≥ dH * (1 + tP / 100) then
          t.exitReason = ExitReason.TARGET ∧ t.exitPrice = dH * (1 + tP / 100)
        else
          t.exitReason = ExitReason.STOP_LOSS ∧ t.exitPrice = dH * (1 - sP / 100)))
    ∧
    (¬ dH < c.high → c.low < dL →
      (∀ x ∈ epre, ¬ x.low ≤ dL * (1 - tP / 100) ∧ ¬ x.high ≥ dL * (1 + sP / 100)) →
      (e.low ≤ dL * (1 - tP / 100) ∨ e.high ≥ dL * (1 + sP / 100)) →
      ∃ t, (processTradingDay (pre ++ c :: rest) (some ⟨dH, dL⟩) tP sP cap).1 = [t] ∧
        t.exitTime = e.timestamp ∧
        (if e.low ≤ dL * (1 - tP / 100) then
          t.exitReason = ExitReason.TARGET ∧ t.exitPrice = dL * (1 - tP / 100)
        else
          t.exitReason = ExitReason.STOP_LOSS ∧ t.exitPrice = dL * (1 + sP / 100))) := by
  obtain ⟨lastC, hlast⟩ : ∃ lastC, (pre ++ c :: rest).getLast? = some lastC := by
    rw [List.getLast?_append_cons,
      List.getLast?_eq_getLast_of_ne_nil (List.cons_ne_nil c rest)]
    exact ⟨_, rfl⟩
  constructor
  · intro h1 hepre he
    have hnone : ∀ x ∈ epre,
        checkExitCondition x (buyEntry dH (tP / 100) (sP / 100) c.timestamp cap).entryPrice
          (buyEntry dH (tP / 100) (sP / 100) c.timestamp cap).isBuy
          (buyEntry dH (tP / 100) (sP / 100) c.timestamp cap).target
          (buyEntry dH (tP / 100) (sP / 100) c.timestamp cap).stopLoss = none := by
      intro x hx
      exact checkExit_none_of_buy x _ _ _ (hepre x hx).1 (hepre x hx).2
    by_cases hT : e.high ≥ dH * (1 + tP / 100)
    · have hsome : checkExitCondition e
          (buyEntry dH (tP / 100) (sP / 100) c.timestamp cap).entryPrice
          (buyEntry dH (tP / 100) (sP / 100) c.timestamp cap).isBuy
          (buyEntry dH (tP / 100) (sP / 100) c.timestamp cap).target
          (buyEntry dH (tP / 100) (sP / 100) c.timestamp cap).stopLoss
          = some (dH * (1 + tP / 100), ExitReason.TARGET) := by
        simp [checkExitCondition, buyEntry, hT]
      refine ⟨recordTrade (buyEntry dH (tP / 100) (sP / 100) c.timestamp cap)
          (dH * (1 + tP / 100)) e.timestamp ExitReason.TARGET, ?_, rfl, ?_⟩
      · rw [processTradingDay_eq _ _ _ _ _ _ hlast,
          processLoop_no_trigger_skip _ _ _ _ _ _ _ hpre,
          processLoop_entry_buy _ _ _ _ _ _ _ h1, hsplit,
          processLoop_some_first_exit _ _ _ _ _ _ _ _ _ _ _ hnone hsome]
      · rw [if_pos hT]
        exact ⟨rfl, rfl⟩
    · have hS : e.low ≤ dH * (1 - sP / 100) := he.resolve_left hT
      have hsome : checkExitCondition e
          (buyEntry dH (tP / 100) (sP / 100) c.timestamp cap).entryPrice
          (buyEntry dH (tP / 100) (sP / 100) c.timestamp cap).isBuy
          (buyEntry dH (tP / 100) (sP / 100) c.timestamp cap).target
          (buyEntry dH (tP / 100) (sP / 100) c.timestamp cap).stopLoss
          = some (dH * (1 - sP / 100), ExitReason.STOP_LOSS) := by
        simp [checkExitCondition, buyEntry, hT, hS]
      refine ⟨recordTrade (buyEntry dH (tP / 100) (sP / 100) c.timestamp cap)
          (dH * (1 - sP / 100)) e.timestamp ExitReason.STOP_LOSS, ?_, rfl, ?_⟩
      · rw [processTradingDay_eq _ _ _ _ _ _ hlast,
          processLoop_no_trigger_skip _ _ _ _ _ _ _ hpre,
          processLoop_entry_buy _ _ _ _ _ _ _ h1, hsplit,
          processLoop_some_first_exit _ _ _ _ _ _ _ _ _ _ _ hnone hsome]
      · rw [if_neg hT]
        exact ⟨rfl, rfl⟩
  · intro h1 h2 hepre he
    have hnone : ∀ x ∈ epre,
        checkExitCondition x (sellEntry dL (tP / 100) (sP / 100) c.timestamp cap).entryPrice
          (sellEntry dL (tP / 100) (sP / 100) c.timestamp cap).isBuy
          (sellEntry dL (tP / 100) (sP / 100) c.timestamp cap).target
          (sellEntry dL (tP / 100) (sP / 100) c.timestamp cap).stopLoss = none := by
      intro x hx
      exact checkExit_none_of_sell x _ _ _ (hepre x hx).1 (hepre x hx).2
    by_cases hT : e.low ≤ dL * (1 - tP / 100)
    · have hsome : checkExitCondition e
          (sellEntry dL (tP / 100) (sP / 100) c.timestamp cap).entryPrice
          (sellEntry dL (tP / 100) (sP / 100) c.timestamp cap).isBuy
          (sellEntry dL (tP / 100) (sP / 100) c.timestamp cap).target
          (sellEntry dL (tP / 100) (sP / 100) c.timestamp cap).stopLoss
          = some (dL * (1 - tP / 100), ExitReason.TARGET) := by
        simp [checkExitCondition, sellEntry, hT]
      refine ⟨recordTrade (sellEntry dL (tP / 100) (sP / 100) c.timestamp cap)
          (dL * (1 - tP / 100)) e.timestamp ExitReason.TARGET, ?_, rfl, ?_⟩
      · rw [processTradingDay_eq _ _ _ _ _ _ hlast,
          processLoop_no_trigger_skip _ _ _ _ _ _ _ hpre,
          processLoop_entry_sell _ _ _ _ _ _ _ h1 h2, hsplit,
          processLoop_some_first_exit _ _ _ _ _ _ _ _ _ _ _ hnone hsome]
      · rw [if_pos hT]
        exact ⟨rfl, rfl⟩
    · have hS : e.high ≥ dL * (1 + sP / 100) := he.resolve_left hT
      have hsome : checkExitCondition e
          (sellEntry dL (tP / 100) (sP / 100) c.timestamp cap).entryPrice
          (sellEntry dL (tP / 100) (sP / 100) c.timestamp cap).isBuy
          (sellEntry dL (tP / 100) (sP / 100) c.timestamp cap).target
          (sellEntry dL (tP / 100) (sP / 100) c.timestamp cap).stopLoss
          = some (dL * (1 + sP / 100), ExitReason.STOP_LOSS) := by
        simp [checkExitCondition, sellEntry, hT, hS]
      refine ⟨recordTrade (sellEntry dL (tP / 100) (sP / 100) c.timestamp cap)
          (dL * (1 + sP / 100)) e.timestamp ExitReason.STOP_LOSS, ?_, rfl, ?_⟩
      · rw [processTradingDay_eq _ _ _ _ _ _ hlast,
          processLoop_no_trigger_skip _ _ _ _ _ _ _ hpre,
          processLoop_entry_sell _ _ _ _ _ _ _ h1 h2, hsplit,
          processLoop_some_first_exit _ _ _ _ _ _ _ _ _ _ _ hnone hsome]
      · rw [if_neg hT]
        exact ⟨rfl, rfl⟩

/-- C2 witness: previous high 100, target% = stop% = 0.2. The entry candle
(high 100.05) hits the BUY entry at 100 but neither exit; the next candle
reaches 100.25 ≥ 100.2 and the trade exits at the target. -/
theorem exit_priority_spec_witness :
    ∃ t, (processTradingDay
        ([] ++ (⟨1, 100, 2001/20, 999/10, 100, 0⟩ : Candle) ::
          [⟨2, 100, 401/4, 100, 501/5, 0⟩])
        (some ⟨100, 90⟩) (1/5) (1/5) 1000).1 = [t] ∧
      t.exitTime = 2 ∧
      (if (⟨2, 100, 401/4, 100, 501/5, 0⟩ : Candle).high ≥ (100 : ℚ) * (1 + (1/5) / 100) then
        t.exitReason = ExitReason.TARGET ∧ t.exitPrice = 100 * (1 + (1/5) / 100)
      else
        t.exitReason = ExitReason.STOP_LOSS ∧ t.exitPrice = 100 * (1 - (1/5) / 100)) := by
  refine (exit_priority_spec 100 90 (1/5) (1/5) 1000 []
      ⟨1, 100, 2001/20, 999/10, 100, 0⟩ [⟨2, 100, 401/4, 100, 501/5, 0⟩]
      [⟨1, 100, 2001/20, 999/10, 100, 0⟩] ⟨2, 100, 401/4, 100, 501/5, 0⟩ []
      (by simp) rfl).1 (by norm_num) ?_ ?_
  · intro x hx
    rw [List.mem_singleton] at hx
    subst hx
    exact ⟨by norm_num, by norm_num⟩
  · left
    norm_num

/-- C5: when a position opens on candle `c` and no candle from `c` to the end
of the day satisfies the target or stop-loss condition, the trade closes at
the last candle's close with reason END_OF_DAY; with `post = []` this covers
a breakout on the day's last candle. -/
theorem end_of_day_exit_spec (dH dL tP sP cap : ℚ) (pre : List Candle)
    (c : Candle) (post : List Candle)
    (hpre : ∀ x ∈ pre, ¬ dH < x.high ∧ ¬ x.low < dL) :
    (dH < c.high →
      (∀ x ∈ c :: post, ¬ x.high ≥ dH * (1 + tP / 100) ∧ ¬ x.low ≤ dH * (1 - sP / 100)) →
      ∃ t, (processTradingDay (pre ++ c :: post) (some ⟨dH, dL⟩) tP sP cap).1 = [t] ∧
        t.exitReason = ExitReason.END_OF_DAY ∧
        t.exitPrice = ((c :: post).getLast (List.cons_ne_nil c post)).close ∧
        t.exitTime = ((c :: post).getLast (List.cons_ne_nil c post)).timestamp)
    ∧
    (¬ dH < c.high → c.low < dL →
      (∀ x ∈ c :: post, ¬ x.low ≤ dL * (1 - tP / 100) ∧ ¬ x.high ≥ dL * (1 + sP / 100)) →
      ∃ t, (processTradingDay (pre ++ c :: post) (some ⟨dH, dL⟩) tP sP cap).1 = [t] ∧
        t.exitReason = ExitReason.END_OF_DAY ∧
        t.exitPrice = ((c :: post).getLast (List.cons_ne_nil c post)).close ∧
        t.exitTime = ((c :: post).getLast (List.cons_ne_nil c post)).timestamp) := by
  have hlast : (pre ++ c :: post).getLast?
      = some ((c :: post).getLast (List.cons_ne_nil c post)) := by
    rw [List.getLast?_append_cons,
      List.getLast?_eq_getLast_of_ne_nil (List.cons_ne_nil c post)]
  constructor
  · intro h1 hnoexit
    have hnone : ∀ x ∈ c :: post,
        checkExitCondition x (buyEntry dH (tP / 100) (sP / 100) c.timestamp cap).entryPrice
          (buyEntry dH (tP / 100) (sP / 100) c.timestamp cap).isBuy
          (buyEntry dH (tP / 100) (sP / 100) c.timestamp cap).target
          (buyEntry dH (tP / 100) (sP / 100) c.timestamp cap).stopLoss = none := by
      intro x hx
      exact checkExit_none_of_buy x _ _ _ (hnoexit x hx).1 (hnoexit x hx).2
    refine ⟨recordTrade (buyEntry dH (tP / 100) (sP / 100) c.timestamp cap)
        ((c :: post).getLast (List.cons_ne_nil c post)).close
        ((c :: post).getLast (List.cons_ne_nil c post)).timestamp
        ExitReason.END_OF_DAY, ?_, rfl, rfl, rfl⟩
    rw [processTradingDay_eq _ _ _ _ _ _ hlast,
      processLoop_no_trigger_skip _ _ _ _ _ _ _ hpre,
      processLoop_entry_buy _ _ _ _ _ _ _ h1,
      processLoop_some_no_exit _ _ _ _ _ _ _ _ hnone]
    rfl
  · intro h1 h2 hnoexit
    have hnone : ∀ x ∈ c :: post,
        checkExitCondition x (sellEntry dL (tP / 100) (sP / 100) c.timestamp cap).entryPrice
          (sellEntry dL (tP / 100) (sP / 100) c.timestamp cap).isBuy
          (sellEntry dL (tP / 100) (sP / 100) c.timestamp cap).target
          (sellEntry dL (tP / 100) (sP / 100) c.timestamp cap).stopLoss = none := by
      intro x hx
      exact checkExit_none_of_sell x _ _ _ (hnoexit x hx).1 (hnoexit x hx).2
    refine ⟨recordTrade (sellEntry dL (tP / 100) (sP / 100) c.timestamp cap)
        ((c :: post).getLast (List.cons_ne_nil c post)).close
        ((c :: post).getLast (List.cons_ne_nil c post)).timestamp
        ExitReason.END_OF_DAY, ?_, rfl, rfl, rfl⟩
    rw [processTradingDay_eq _ _ _ _ _ _ hlast,
      processLoop_no_trigger_skip _ _ _ _ _ _ _ hpre,
      processLoop_entry_sell _ _ _ _ _ _ _ h1 h2,
      processLoop_some_no_exit _ _ _ _ _ _ _ _ hnone]
    rfl

/-- C5 witness: previous high 100, a single candle breaks out (high 100.1)
on the last candle of the day without reaching the 100.2 target or the 99.8
stop, so the trade closes immediately END_OF_DAY at that candle's close. -/
theorem end_of_day_exit_spec_witness :
    ∃ t, (processTradingDay
        ([] ++ (⟨7, 100, 1001/10, 999/10, 100, 0⟩ : Candle) :: [])
        (some ⟨100, 90⟩) (1/5) (1/5) 1000).1 = [t] ∧
      t.exitReason = ExitReason.END_OF_DAY ∧
      t.exitPrice = (((⟨7, 100, 1001/10, 999/10, 100, 0⟩ : Candle) :: []).getLast
        (List.cons_ne_nil _ _)).close ∧
      t.exitTime = (((⟨7, 100, 1001/10, 999/10, 100, 0⟩ : Candle) :: []).getLast
        (List.cons_ne_nil _ _)).timestamp := by
  refine (end_of_day_exit_spec 100 90 (1/5) (1/5) 1000 []
      ⟨7, 100, 1001/10, 999/10, 100, 0⟩ [] (by simp)).1 (by norm_num) ?_
  intro x hx
  rw [List.mem_singleton] at hx
  subst hx
  exact ⟨by norm_num, by norm_num⟩

theorem ddStep_maxDrawdown_le (s : DDState) (p : ℚ) :
    s.maxDrawdown ≤ (ddStep s p).maxDrawdown := by
  dsimp [ddStep]
  split
  · split
    · exact le_of_lt (by assumption)
    · exact le_refl _
  · split
    · exact le_of_lt (by assumption)
    · exact le_refl _

theorem ddFold_maxDrawdown_mono (l : List ℚ) :
    ∀ s : DDState, s.maxDrawdown ≤ (l.foldl ddStep s).maxDrawdown := by
  induction l with
  | nil => exact fun s => le_refl _
  | cons p rest ih =>
    intro s
    exact le_trans (ddStep_maxDrawdown_le s p) (ih (ddStep s p))

theorem ddFold_nonneg_invariant (l : List ℚ) :
    ∀ s : DDState, (∀ p ∈ l, 0 ≤ p) → s.peak = s.runningPnl → s.maxDrawdown = 0 →
      (l.foldl ddStep s).peak = (l.foldl ddStep s).runningPnl ∧
      (l.foldl ddStep s).maxDrawdown = 0 := by
  induction l with
  | nil => exact fun s _ h1 h2 => ⟨h1, h2⟩
  | cons p rest ih =>
    intro s hp h1 h2
    have hp0 : 0 ≤ p := hp p (List.mem_cons_self p rest)
    have hstep : (ddStep s p).peak = (ddStep s p).runningPnl ∧
        (ddStep s p).maxDrawdown = 0 := by
      dsimp [ddStep]
      rw [h1, h2]
      by_cases hgt : s.runningPnl + p > s.runningPnl
      · rw [if_pos hgt]
        simp
      · have hp0' : p = 0 := le_antisymm (by linarith [not_lt.mp hgt]) hp0
        rw [if_neg hgt, hp0']
        simp
    exact ih (ddStep s p) (fun q hq => hp q (List.mem_cons_of_mem p hq)) hstep.1 hstep.2

theorem round2_nonneg (x : ℚ) (h : 0 ≤ x) : 0 ≤ round2 x := by
  unfold round2
  apply div_nonneg _ (by norm_num)
  rw [round_eq]
  have : (0 : ℤ) ≤ ⌊x * 100 + 1 / 2⌋ := Int.floor_nonneg.mpr (by positivity)
  exact_mod_cast this

/-- C7: the max drawdown produced by the performance evaluator (the walk
accumulating `runningPnl` with `peak` and `maxDrawdown` starting at 0) is
always nonnegative, and it is 0 whenever every ledger `pnl` is
nonnegative. -/
theorem maxDrawdown_nonneg_and_zero_on_nonneg (trades : List Trade) :
    0 ≤ (calculatePerformanceMetrics trades).maxDrawdown ∧
    ((∀ t ∈ trades, 0 ≤ t.pnl) →
      (calculatePerformanceMetrics trades).maxDrawdown = 0) := by
  cases trades with
  | nil => exact ⟨le_refl 0, fun _ => rfl⟩
  | cons t0 rest =>
    have hfold : ((t0 :: rest).foldl (fun s t => ddStep s t.pnl) ⟨0, 0, 0⟩)
        = (((t0 :: rest).map Trade.pnl).foldl ddStep ⟨0, 0, 0⟩) := by
      rw [List.foldl_map]
    constructor
    · have h0 : (0 : ℚ) ≤ (((t0 :: rest).map Trade.pnl).foldl ddStep
          ⟨0, 0, 0⟩).maxDrawdown := ddFold_maxDrawdown_mono _ ⟨0, 0, 0⟩
      refine round2_nonneg _ ?_
      simpa only [calculatePerformanceMetrics, hfold] using h0
    · intro hall
      have hz := (ddFold_nonneg_invariant ((t0 :: rest).map Trade.pnl) ⟨0, 0, 0⟩
        (by
          intro p hp
          obtain ⟨t, ht, rfl⟩ := List.mem_map.mp hp
          exact hall t ht) rfl rfl).2
      show round2 ((t0 :: rest).foldl (fun s t => ddStep s t.pnl) ⟨0, 0, 0⟩).maxDrawdown = 0
      rw [hfold, hz]
      simp [round2]

/-- C7 witness: a two-trade ledger with nonnegative pnl values has max
drawdown 0 (hence also nonnegative). -/
theorem maxDrawdown_nonneg_and_zero_on_nonneg_witness :
    0 ≤ (calculatePerformanceMetrics
        [{ date := 1, type := TradeType.BUY, entryPrice := 100, entryTime := 1,
           exitPrice := 101, exitTime := 2, exitReason := ExitReason.TARGET,
           quantity := 2, pnl := 2, pnlPercent := 1 },
         { date := 2, type := TradeType.SELL, entryPrice := 90, entryTime := 3,
           exitPrice := 90, exitTime := 4, exitReason := ExitReason.END_OF_DAY,
           quantity := 1, pnl := 0, pnlPercent := 0 }]).maxDrawdown ∧
    (calculatePerformanceMetrics
        [{ date := 1, type := TradeType.BUY, entryPrice := 100, entryTime := 1,
           exitPrice := 101, exitTime := 2, exitReason := ExitReason.TARGET,
           quantity := 2, pnl := 2, pnlPercent := 1 },
         { date := 2, type := TradeType.SELL, entryPrice := 90, entryTime := 3,
           exitPrice := 90, exitTime := 4, exitReason := ExitReason.END_OF_DAY,
           quantity := 1, pnl := 0, pnlPercent := 0 }]).maxDrawdown = 0 := by
  refine ⟨(maxDrawdown_nonneg_and_zero_on_nonneg _).1,
    (maxDrawdown_nonneg_and_zero_on_nonneg _).2 ?_⟩
  intro t ht
  rcases List.mem_cons.mp ht with rfl | ht'
  · norm_num
  · rcases List.mem_cons.mp ht' with rfl | ht''
    · norm_num
    · simp at ht''

theorem le_foldl_max {α : Type} [LinearOrder α] :
    ∀ (l : List α) (a : α), a ≤ l.foldl max a
  | [], a => le_refl a
  | h :: t, a => le_trans (le_max_left a h) (le_foldl_max t (max a h))

theorem mem_le_foldl_max {α : Type} [LinearOrder α] :
    ∀ (l : List α) (a b : α), b ∈ l → b ≤ l.foldl max a
  | h :: t, a, b, hb => by
    rcases List.mem_cons.mp hb with rfl | hb'
    · exact le_trans (le_max_right a b) (le_foldl_max t _)
    · exact mem_le_foldl_max t _ b hb'

theorem foldl_max_eq_or_mem {α : Type} [LinearOrder α] :
    ∀ (l : List α) (a : α), l.foldl max a = a ∨ l.foldl max a ∈ l
  | [], _ => Or.inl rfl
  | h :: t, a => by
    rcases foldl_max_eq_or_mem t (max a h) with heq | hmem
    · rcases le_total a h with hle | hle
      · right
        rw [List.foldl_cons, heq, max_eq_right hle]
        exact List.mem_cons_self _ _
      · left
        rw [List.foldl_cons, heq, max_eq_left hle]
    · right
      exact List.mem_cons_of_mem _ hmem

theorem foldl_min_le {α : Type} [LinearOrder α] :
    ∀ (l : List α) (a : α), l.foldl min a ≤ a
  | [], a => le_refl a
  | h :: t, a => le_trans (foldl_min_le t (min a h)) (min_le_left a h)

theorem foldl_min_le_mem {α : Type} [LinearOrder α] :
    ∀ (l : List α) (a b : α), b ∈ l → l.foldl min a ≤ b
  | h :: t, a, b, hb => by
    rcases List.mem_cons.mp hb with rfl | hb'
    · exact le_trans (foldl_min_le t _) (min_le_right a b)
    · exact foldl_min_le_mem t _ b hb'

theorem foldl_min_eq_or_mem {α : Type} [LinearOrder α] :
    ∀ (l : List α) (a : α), l.foldl min a = a ∨ l.foldl min a ∈ l
  | [], _ => Or.inl rfl
  | h :: t, a => by
    rcases foldl_min_eq_or_mem t (min a h) with heq | hmem
    · rcases le_total a h with hle | hle
      · left
        rw [List.foldl_cons, heq, min_eq_left hle]
      · right
        rw [List.foldl_cons, heq, min_eq_right hle]
        exact List.mem_cons_self _ _
    · right
      exact List.mem_cons_of_mem _ hmem

theorem foldl_add_volume :
    ∀ (l : List Candle) (n : ℕ),
      l.foldl (fun s x => s + x.volume) n = n + (l.map Candle.volume).sum
  | [], n => by simp
  | h :: t, n => by
    rw [List.foldl_cons, foldl_add_volume t (n + h.volume)]
    simp [Nat.add_assoc]

theorem sorted_getLast_ge :
    ∀ (l : List Candle), l.Sorted tsLE → ∀ x ∈ l, ∀ h : l ≠ [],
      x.timestamp ≤ (l.getLast h).timestamp := by
  intro l
  induction l with
  | nil => intro _ x hx; exact absurd hx (List.not_mem_nil x)
  | cons a t ih =>
    intro hs x hx h
    cases t with
    | nil =>
      rcases List.mem_cons.mp hx with rfl | hx'
      · exact le_refl _
      · exact absurd hx' (List.not_mem_nil x)
    | cons b t' =>
      rw [List.getLast_cons (List.cons_ne_nil b t')]
      rcases List.mem_cons.mp hx with rfl | hx'
      · have hrel := (List.sorted_cons.mp hs).1
        exact hrel ((b :: t').getLast (List.cons_ne_nil b t'))
          (List.getLast_mem (List.cons_ne_nil b t'))
      · exact ih (List.sorted_cons.mp hs).2 x hx' (List.cons_ne_nil b t')

/-- C8: for a non-empty group of candles of one (security, date), the seeded
daily summary has `dailyHigh` = the maximum high, `dailyLow` = the minimum
low, `open` = the open of a timestamp-earliest candle, `close` = the close of
a timestamp-latest candle, `totalVolume` = the sum of the volumes; and under
per-candle OHLC sanity (`low ≤ open, close ≤ high`) it satisfies
`dailyLow ≤ open ≤ dailyHigh` and `dailyLow ≤ close ≤ dailyHigh`. -/
theorem seedDailySummary_spec (l : List Candle) (hne : l ≠ []) :
    ∃ s, seedDailySummary l = some s ∧
      (∀ x ∈ l, x.high ≤ s.dailyHigh) ∧ (∃ x ∈ l, s.dailyHigh = x.high) ∧
      (∀ x ∈ l, s.dailyLow ≤ x.low) ∧ (∃ x ∈ l, s.dailyLow = x.low) ∧
      (∃ x ∈ l, s.open_ = x.open_ ∧ ∀ y ∈ l, x.timestamp ≤ y.timestamp) ∧
      (∃ x ∈ l, s.close = x.close ∧ ∀ y ∈ l, y.timestamp ≤ x.timestamp) ∧
      s.totalVolume = (l.map Candle.volume).sum ∧
      ((∀ x ∈ l, x.low ≤ x.open_ ∧ x.open_ ≤ x.high ∧
          x.low ≤ x.close ∧ x.close ≤ x.high) →
        s.dailyLow ≤ s.open_ ∧ s.open_ ≤ s.dailyHigh ∧
        s.dailyLow ≤ s.close ∧ s.close ≤ s.dailyHigh) := by
  have hperm : List.Perm (List.insertionSort tsLE l) l :=
    List.perm_insertionSort tsLE l
  have hsort : List.Sorted tsLE (List.insertionSort tsLE l) :=
    List.sorted_insertionSort tsLE l
  cases hs : List.insertionSort tsLE l with
  | nil =>
    rw [hs] at hperm
    exact absurd hperm.symm.eq_nil hne
  | cons first restS =>
    rw [hs] at hperm hsort
    have hmem : ∀ x, x ∈ l ↔ x ∈ first :: restS := fun x => hperm.mem_iff.symm
    have hfoldH : restS.foldl (fun m x => max m x.high) first.high
        = (restS.map Candle.high).foldl max first.high := by
      rw [List.foldl_map]
    have hfoldL : restS.foldl (fun m x => min m x.low) first.low
        = (restS.map Candle.low).foldl min first.low := by
      rw [List.foldl_map]
    have hub : ∀ x ∈ first :: restS,
        x.high ≤ restS.foldl (fun m x => max m x.high) first.high := by
      intro x hx
      rw [hfoldH]
      rcases List.mem_cons.mp hx with rfl | hx'
      · exact le_foldl_max _ _
      · exact mem_le_foldl_max _ _ _ (List.mem_map_of_mem Candle.high hx')
    have hlb : ∀ x ∈ first :: restS,
        restS.foldl (fun m x => min m x.low) first.low ≤ x.low := by
      intro x hx
      rw [hfoldL]
      rcases List.mem_cons.mp hx with rfl | hx'
      · exact foldl_min_le _ _
      · exact foldl_min_le_mem _ _ _ (List.mem_map_of_mem Candle.low hx')
    have hlastmem : (first :: restS).getLast (List.cons_ne_nil first restS)
        ∈ first :: restS := List.getLast_mem _
    refine ⟨{ dailyHigh := restS.foldl (fun m x => max m x.high) first.high,
              dailyLow := restS.foldl (fun m x => min m x.low) first.low,
              open_ := first.open_,
              close := ((first :: restS).getLast (List.cons_ne_nil first restS)).close,
              totalVolume := (first :: restS).foldl (fun s x => s + x.volume) 0 },
      ?_, ?_, ?_, ?_, ?_, ?_, ?_, ?_, ?_⟩
    · simp only [seedDailySummary, hs,
        List.getLast?_eq_getLast_of_ne_nil (List.cons_ne_nil first restS)]
    · intro x hx
      exact hub x ((hmem x).mp hx)
    · rw [hfoldH]
      rcases foldl_max_eq_or_mem (restS.map Candle.high) first.high with heq | hmem2
      · exact ⟨first, (hmem first).mpr (List.mem_cons_self first restS), heq.symm ▸ rfl⟩
      · obtain ⟨y, hy, hyeq⟩ := List.mem_map.mp hmem2
        exact ⟨y, (hmem y).mpr (List.mem_cons_of_mem first hy), hyeq.symm⟩
    · intro x hx
      exact hlb x ((hmem x).mp hx)
    · rw [hfoldL]
      rcases foldl_min_eq_or_mem (restS.map Candle.low) first.low with heq | hmem2
      · exact ⟨first, (hmem first).mpr (List.mem_cons_self first restS), heq.symm ▸ rfl⟩
      · obtain ⟨y, hy, hyeq⟩ := List.mem_map.mp hmem2
        exact ⟨y, (hmem y).mpr (List.mem_cons_of_mem first hy), hyeq.symm⟩
    · refine ⟨first, (hmem first).mpr (List.mem_cons_self first restS), rfl, ?_⟩
      intro y hy
      rcases List.mem_cons.mp ((hmem y).mp hy) with rfl | hy'
      · exact le_refl _
      · exact (List.sorted_cons.mp hsort).1 y hy'
    · refine ⟨(first :: restS).getLast (List.cons_ne_nil first restS),
        (hmem _).mpr hlastmem, rfl, ?_⟩
      intro y hy
      exact sorted_getLast_ge (first :: restS) hsort y ((hmem y).mp hy) _
    · rw [foldl_add_volume, Nat.zero_add]
      exact (hperm.map Candle.volume).sum_eq
    · intro hOHLC
      have hfirstl : first ∈ l := (hmem first).mpr (List.mem_cons_self first restS)
      have hlastl : (first :: restS).getLast (List.cons_ne_nil first restS) ∈ l :=
        (hmem _).mpr hlastmem
      refine ⟨?_, ?_, ?_, ?_⟩
      · exact le_trans (hlb first (List.mem_cons_self first restS))
          (hOHLC first hfirstl).1
      · exact le_trans (hOHLC first hfirstl).2.1
          (hub first (List.mem_cons_self first restS))
      · exact le_trans (hlb _ hlastmem) (hOHLC _ hlastl).2.2.1
      · exact le_trans (hOHLC _ hlastl).2.2.2 (hub _ hlastmem)

/-- C8 witness: two out-of-order candles of one day; the summary takes
high 102 / low 98, open 99 from the earlier candle, close 100 from the later
one, total volume 8, and satisfies the range invariant. -/
theorem seedDailySummary_spec_witness :
    ∃ s, seedDailySummary
        [⟨2, 100, 101, 100, 100, 5⟩, ⟨1, 99, 102, 98, 101, 3⟩] = some s ∧
      (∀ x ∈ [(⟨2, 100, 101, 100, 100, 5⟩ : Candle), ⟨1, 99, 102, 98, 101, 3⟩],
        x.high ≤ s.dailyHigh) ∧
      (∃ x ∈ [(⟨2, 100, 101, 100, 100, 5⟩ : Candle), ⟨1, 99, 102, 98, 101, 3⟩],
        s.dailyHigh = x.high) ∧
      (∀ x ∈ [(⟨2, 100, 101, 100, 100, 5⟩ : Candle), ⟨1, 99, 102, 98, 101, 3⟩],
        s.dailyLow ≤ x.low) ∧
      (∃ x ∈ [(⟨2, 100, 101, 100, 100, 5⟩ : Candle), ⟨1, 99, 102, 98, 101, 3⟩],
        s.dailyLow = x.low) ∧
      (∃ x ∈ [(⟨2, 100, 101, 100, 100, 5⟩ : Candle), ⟨1, 99, 102, 98, 101, 3⟩],
        s.open_ = x.open_ ∧
        ∀ y ∈ [(⟨2, 100, 101, 100, 100, 5⟩ : Candle), ⟨1, 99, 102, 98, 101, 3⟩],
          x.timestamp ≤ y.timestamp) ∧
      (∃ x ∈ [(⟨2, 100, 101, 100, 100, 5⟩ : Candle), ⟨1, 99, 102, 98, 101, 3⟩],
        s.close = x.close ∧
        ∀ y ∈ [(⟨2, 100, 101, 100, 100, 5⟩ : Candle), ⟨1, 99, 102, 98, 101, 3⟩],
          y.timestamp ≤ x.timestamp) ∧
      s.totalVolume = ([(⟨2, 100, 101, 100, 100, 5⟩ : Candle),
        ⟨1, 99, 102, 98, 101, 3⟩].map Candle.volume).sum ∧
      ((∀ x ∈ [(⟨2, 100, 101, 100, 100, 5⟩ : Candle), ⟨1, 99, 102, 98, 101, 3⟩],
          x.low ≤ x.open_ ∧ x.open_ ≤ x.high ∧
          x.low ≤ x.close ∧ x.close ≤ x.high) →
        s.dailyLow ≤ s.open_ ∧ s.open_ ≤ s.dailyHigh ∧
        s.dailyLow ≤ s.close ∧ s.close ≤ s.dailyHigh) :=
  seedDailySummary_spec
    [⟨2, 100, 101, 100, 100, 5⟩, ⟨1, 99, 102, 98, 101, 3⟩] (by simp)
